import Mathlib

/-!
Verification of the json-webhook-server repository (app.py + db_manager.py)
against its specification.

The embedding models:
* JSON values (`Json`) together with the serialization `Json.dumps` and the
  parser `Json.loads`, mirroring Python's `json.dumps` / `json.loads` on the
  fragment used by the service (null, booleans, integers, printable-ASCII
  strings, arrays, objects; floating-point numbers and `\uXXXX` escapes are
  outside the embedding).
* The three SQLite tables (`webhooks`, `webhook_payloads`, `webhook_failures`)
  as lists of rows inside a `DbState`, and each `DbManager` method as a pure
  state-passing function.  SQLite's BINARY text collation is embedded as
  `sqlLe`, lexicographic comparison of the character lists.
* The `POST /webhook/<id>` route of app.py (`webhook_route`) and the
  `GET /download/<id>` export (`download_webhook_data`).
Nondeterministic inputs of the real code (current UTC time, fresh UUIDs,
the request body) are explicit parameters.
-/

/-- JSON values, as produced by Python's `json.loads`: `None`, `bool`, `int`,
`str`, `list`, `dict` (insertion-ordered key/value pairs). -/
inductive Json where
  | null : Json
  | bool (b : Bool) : Json
  | num (n : Int) : Json
  | str (s : String) : Json
  | arr (elems : List Json) : Json
  | obj (fields : List (String × Json)) : Json
deriving Repr

namespace Json

/-- Decimal digit character for `d < 10`: embeds Python's integer printing. -/
def digitChar (d : Nat) : Char := Char.ofNat (48 + d)

/-- Decimal digits of a natural number, most significant first
(`str(n)` in Python). -/
def natToChars (n : Nat) : List Char :=
  if _h : n < 10 then [digitChar n]
  else natToChars (n / 10) ++ [digitChar (n % 10)]
decreasing_by
  exact Nat.div_lt_self (by omega) (by omega)

/-- String-content escaping done by `json.dumps` on printable ASCII
characters: only `"` and `\` need escaping there. -/
def escapeChars : List Char → List Char
  | [] => []
  | c :: cs =>
      (if c = '"' then ['\\', '"']
       else if c = '\\' then ['\\', '\\']
       else [c]) ++ escapeChars cs

mutual

/-- Serialization of a JSON value, mirroring `json.dumps(v)` with the default
separators `", "` and `": "`. -/
def dumpVal : Json → List Char
  | .null => 'n' :: ['u', 'l', 'l']
  | .bool true => 't' :: ['r', 'u', 'e']
  | .bool false => 'f' :: ['a', 'l', 's', 'e']
  | .num n =>
      if n < 0 then '-' :: natToChars n.natAbs else natToChars n.toNat
  | .str s => '"' :: (escapeChars s.data ++ ['"'])
  | .arr elems => '[' :: (dumpElems elems ++ [']'])
  | .obj fields => '{' :: (dumpFields fields ++ ['}'])

/-- Array elements, joined by `", "`. -/
def dumpElems : List Json → List Char
  | [] => []
  | [v] => dumpVal v
  | v :: w :: rest => dumpVal v ++ ',' :: ' ' :: dumpElems (w :: rest)

/-- Object entries `"key": value`, joined by `", "`. -/
def dumpFields : List (String × Json) → List Char
  | [] => []
  | [(k, v)] => '"' :: (escapeChars k.data ++ ['"']) ++ ':' :: ' ' :: dumpVal v
  | (k, v) :: kv :: rest =>
      '"' :: (escapeChars k.data ++ ['"']) ++ ':' :: ' ' :: dumpVal v
        ++ ',' :: ' ' :: dumpFields (kv :: rest)

end

/-- `json.dumps(v)` as a Lean `String`. -/
def dumps (v : Json) : String := ⟨dumpVal v⟩

/-- JSON whitespace accepted between tokens. -/
def isJsonWs (c : Char) : Bool := c = ' ' || c = '\t' || c = '\n' || c = '\r'

/-- Skip JSON whitespace. -/
def skipWs (cs : List Char) : List Char := cs.dropWhile isJsonWs

/-- Match an exact literal suffix (used for `null`/`true`/`false`). -/
def expectChars : List Char → List Char → Option (List Char)
  | [], cs => some cs
  | _ :: _, [] => none
  | p :: ps, c :: cs => if c = p then expectChars ps cs else none

/-- Numeric value of a (non-empty) digit list, most significant first. -/
def digitsVal (ds : List Char) : Nat :=
  ds.foldl (fun a c => a * 10 + (c.toNat - 48)) 0

/-- Parse a run of decimal digits into a natural number. -/
def parseNum (cs : List Char) : Option (Nat × List Char) :=
  let ds := cs.takeWhile Char.isDigit
  if ds.isEmpty then none else some (digitsVal ds, cs.dropWhile Char.isDigit)

/-- Single-character escapes recognized inside string literals. -/
def escChar (e : Char) : Option Char :=
  if e = '"' then some '"'
  else if e = '\\' then some '\\'
  else if e = '/' then some '/'
  else if e = 'n' then some '\n'
  else if e = 't' then some '\t'
  else if e = 'r' then some '\r'
  else if e = 'b' then some (Char.ofNat 8)
  else if e = 'f' then some (Char.ofNat 12)
  else none

/-- Parse the remainder of a string literal, after the opening quote. -/
def parseStringRest : List Char → Option (List Char × List Char)
  | [] => none
  | c :: rest =>
      if c = '"' then some ([], rest)
      else if c = '\\' then
        match rest with
        | [] => none
        | e :: rest2 =>
            match escChar e with
            | none => none
            | some d => (parseStringRest rest2).map (fun p => (d :: p.1, p.2))
      else (parseStringRest rest).map (fun p => (c :: p.1, p.2))

mutual

/-- Recursive-descent JSON parser (fuelled); mirrors `json.loads` on the
embedded fragment. -/
def parseVal (fuel : Nat) (input : List Char) : Option (Json × List Char) :=
  match fuel with
  | 0 => none
  | fuel + 1 =>
    match skipWs input with
    | [] => none
    | c :: rest =>
      if c = 'n' then
        (expectChars ['u', 'l', 'l'] rest).map (fun r => (.null, r))
      else if c = 't' then
        (expectChars ['r', 'u', 'e'] rest).map (fun r => (.bool true, r))
      else if c = 'f' then
        (expectChars ['a', 'l', 's', 'e'] rest).map (fun r => (.bool false, r))
      else if c = '"' then
        (parseStringRest rest).map (fun p => (.str ⟨p.1⟩, p.2))
      else if c = '[' then
        match skipWs rest with
        | ']' :: r2 => some (.arr [], r2)
        | cs2 => (parseElems fuel cs2).map (fun p => (.arr p.1, p.2))
      else if c = '{' then
        match skipWs rest with
        | '}' :: r2 => some (.obj [], r2)
        | cs2 => (parseFields fuel cs2).map (fun p => (.obj p.1, p.2))
      else if c = '-' then
        (parseNum rest).map (fun p => (.num (-(p.1 : Int)), p.2))
      else if c.isDigit then
        (parseNum (c :: rest)).map (fun p => (.num (p.1 : Int), p.2))
      else none

/-- Parse `value (, value)* ]` inside an array (the input starts at the first
element). -/
def parseElems (fuel : Nat) (input : List Char) :
    Option (List Json × List Char) :=
  match fuel with
  | 0 => none
  | fuel + 1 =>
    match parseVal fuel input with
    | none => none
    | some (v, r) =>
      match skipWs r with
      | ',' :: r2 =>
          (parseElems fuel (skipWs r2)).map (fun p => (v :: p.1, p.2))
      | ']' :: r2 => some ([v], r2)
      | _ => none

/-- Parse `"key": value (, "key": value)* }` inside an object (the input
starts at the first key's opening quote). -/
def parseFields (fuel : Nat) (input : List Char) :
    Option (List (String × Json) × List Char) :=
  match fuel with
  | 0 => none
  | fuel + 1 =>
    match input with
    | '"' :: ks =>
      match parseStringRest ks with
      | none => none
      | some (k, r) =>
        match skipWs r with
        | ':' :: r2 =>
          match parseVal fuel (skipWs r2) with
          | none => none
          | some (v, r3) =>
            match skipWs r3 with
            | ',' :: r4 =>
                (parseFields fuel (skipWs r4)).map
                  (fun p => ((⟨k⟩, v) :: p.1, p.2))
            | '}' :: r4 => some ([(⟨k⟩, v)], r4)
            | _ => none
        | _ => none
    | _ => none

end

/-- `json.loads(s)`: parse a full document, requiring the remainder to be
whitespace only. -/
def loads (s : String) : Option Json :=
  match parseVal (s.data.length + 1) s.data with
  | none => none
  | some (v, r) => if (skipWs r).isEmpty then some v else none

/-- Printable-ASCII check: on such characters `json.dumps` escapes exactly
`"` and `\`, which is what `escapeChars` implements. -/
def wfChar (c : Char) : Bool := 32 ≤ c.toNat && c.toNat < 127

/-- All characters of a string are printable ASCII. -/
def wfStr (s : String) : Bool := s.data.all wfChar

mutual

/-- The JSON fragment whose serialization by `dumpVal` coincides with
Python's `json.dumps`: every string is printable ASCII and object keys are
distinct (as Python dict keys are). -/
def wfVal : Json → Bool
  | .null => true
  | .bool _ => true
  | .num _ => true
  | .str s => wfStr s
  | .arr elems => wfElems elems
  | .obj fields => wfFields fields

/-- `wfVal` on every array element. -/
def wfElems : List Json → Bool
  | [] => true
  | v :: rest => wfVal v && wfElems rest

/-- `wfVal` on every object value, well-formed distinct keys. -/
def wfFields : List (String × Json) → Bool
  | [] => true
  | (k, v) :: rest =>
      wfStr k && wfVal v && !((rest.map Prod.fst).contains k) && wfFields rest

end

end Json

/-! ## SQLite TEXT collation

The `timestamp` columns are `TEXT`; SQLite's default BINARY collation compares
the UTF-8 bytes, which on any strings coincides with lexicographic comparison
of the Unicode code points.  `charsLe` / `sqlLe` embed that ordering. -/

/-- Lexicographic (code-point) comparison of character lists: SQLite's BINARY
collation for TEXT values. -/
def charsLe : List Char → List Char → Bool
  | _ :: _, [] => false
  | [], _ => true
  | a :: as, b :: bs =>
      if a < b then true else if b < a then false else charsLe as bs

/-- SQLite `<=` on TEXT values. -/
def sqlLe (a b : String) : Bool := charsLe a.data b.data

/-- Strict version of `sqlLe`. -/
def sqlLt (a b : String) : Bool := sqlLe a b && !(a == b)

theorem charsLe_refl (as : List Char) : charsLe as as = true := by
  induction as with
  | nil => rfl
  | cons a as ih => simp [charsLe, ih]

theorem charsLe_total (as bs : List Char) :
    charsLe as bs = true ∨ charsLe bs as = true := by
  induction as generalizing bs with
  | nil => left; rfl
  | cons a as ih =>
    cases bs with
    | nil => right; rfl
    | cons b bs =>
      rcases lt_trichotomy a b with h | h | h
      · left; simp [charsLe, h]
      · subst h
        rcases ih bs with h2 | h2
        · left; simp [charsLe, h2]
        · right; simp [charsLe, h2]
      · right; simp [charsLe, h]

theorem charsLe_cons_iff (a b : Char) (as bs : List Char) :
    charsLe (a :: as) (b :: bs) = true ↔
      a < b ∨ (a = b ∧ charsLe as bs = true) := by
  simp only [charsLe]
  rcases lt_trichotomy a b with h | h | h
  · simp [h]
  · subst h; simp [lt_irrefl]
  · simp [not_lt_of_lt h, h, ne_of_gt h]

theorem charsLe_trans {as bs cs : List Char} (h1 : charsLe as bs = true)
    (h2 : charsLe bs cs = true) : charsLe as cs = true := by
  induction as generalizing bs cs with
  | nil => rfl
  | cons a as ih =>
    cases bs with
    | nil => simp [charsLe] at h1
    | cons b bs =>
      cases cs with
      | nil => simp [charsLe] at h2
      | cons c cs =>
        rw [charsLe_cons_iff] at h1 h2 ⊢
        rcases h1 with h1 | ⟨rfl, h1⟩
        · rcases h2 with h2 | ⟨rfl, h2⟩
          · exact Or.inl (lt_trans h1 h2)
          · exact Or.inl h1
        · rcases h2 with h2 | ⟨rfl, h2⟩
          · exact Or.inl h2
          · exact Or.inr ⟨rfl, ih h1 h2⟩

theorem charsLe_antisymm {as bs : List Char} (h1 : charsLe as bs = true)
    (h2 : charsLe bs as = true) : as = bs := by
  induction as generalizing bs with
  | nil =>
    cases bs with
    | nil => rfl
    | cons b bs => simp [charsLe] at h2
  | cons a as ih =>
    cases bs with
    | nil => simp [charsLe] at h1
    | cons b bs =>
      rw [charsLe_cons_iff] at h1 h2
      rcases h1 with h1 | ⟨rfl, h1⟩
      · rcases h2 with h2 | ⟨rfl, h2⟩
        · exact absurd h2 (not_lt_of_lt h1)
        · exact absurd h1 (lt_irrefl _)
      · rcases h2 with h2 | ⟨_, h2⟩
        · exact absurd h2 (lt_irrefl _)
        · rw [ih h1 h2]

theorem sqlLe_total (a b : String) : sqlLe a b = true ∨ sqlLe b a = true :=
  charsLe_total a.data b.data

theorem sqlLe_trans {a b c : String} (h1 : sqlLe a b = true)
    (h2 : sqlLe b c = true) : sqlLe a c = true :=
  charsLe_trans h1 h2

theorem sqlLe_antisymm {a b : String} (h1 : sqlLe a b = true)
    (h2 : sqlLe b a = true) : a = b :=
  String.ext (charsLe_antisymm h1 h2)

/-! ## Timestamps

`record_successful_payload`, `record_failed_payload` and `create_webhook`
store `datetime.now(timezone.utc).isoformat()`; the dashboard queries compare
those TEXT values against `datetime('now', ...)` / `date('now', ...)`, which
SQLite renders as `YYYY-MM-DD HH:MM:SS` / `YYYY-MM-DD`. -/

/-- A UTC wall-clock instant (whole seconds). -/
structure UtcTime where
  year : Nat
  month : Nat
  day : Nat
  hour : Nat
  minute : Nat
  second : Nat
deriving Repr, DecidableEq

/-- Zero-padded two-digit decimal rendering. -/
def pad2 (n : Nat) : String := if n < 10 then "0" ++ toString n else toString n

/-- `datetime.now(timezone.utc).isoformat()` for a whole-second instant:
`YYYY-MM-DDTHH:MM:SS+00:00`. -/
def UtcTime.isoformat (t : UtcTime) : String :=
  toString t.year ++ "-" ++ pad2 t.month ++ "-" ++ pad2 t.day ++ "T"
    ++ pad2 t.hour ++ ":" ++ pad2 t.minute ++ ":" ++ pad2 t.second ++ "+00:00"

/-- SQLite's `datetime(...)` text: `YYYY-MM-DD HH:MM:SS` (space separator,
no offset suffix). -/
def UtcTime.sqliteText (t : UtcTime) : String :=
  toString t.year ++ "-" ++ pad2 t.month ++ "-" ++ pad2 t.day ++ " "
    ++ pad2 t.hour ++ ":" ++ pad2 t.minute ++ ":" ++ pad2 t.second

/-- Days since the proleptic-Gregorian era origin (civil-from-days algorithm,
valid for year ≥ 1). -/
def daysFromCivil (y m d : Nat) : Nat :=
  let y' := if m ≤ 2 then y - 1 else y
  let era := y' / 400
  let yoe := y' % 400
  let mp := (m + 9) % 12
  let doy := (153 * mp + 2) / 5 + d - 1
  let doe := yoe * 365 + yoe / 4 - yoe / 100 + doy
  era * 146097 + doe

/-- Seconds since the era origin; differences of `epochSeconds` are real
elapsed seconds. -/
def UtcTime.epochSeconds (t : UtcTime) : Nat :=
  daysFromCivil t.year t.month t.day * 86400
    + t.hour * 3600 + t.minute * 60 + t.second

/-- First 10 characters of a stored timestamp: SQLite's `date(ts)` on the
`isoformat()` strings the service stores (UTC offset `+00:00`). -/
def dateOf (ts : String) : String := ⟨ts.data.take 10⟩

/-! ## Database state

The three tables created by `init_db` in app.py.  `get_db` switches
`PRAGMA foreign_keys = ON`, so inserts into `webhook_payloads` /
`webhook_failures` fail with an integrity error when the referenced webhook id
is absent, and deleting a webhook cascades (`ON DELETE CASCADE`).  Tables are
lists of rows in insertion order; `AUTOINCREMENT` ids come from the
`next_payload_id` / `next_failure_id` counters. -/

/-- One row of the `webhooks` table. -/
structure Webhook where
  id : String
  url : String
  created_at : String
  success_count : Nat
  failure_count : Nat
  last_payload_at : Option String
deriving Repr, DecidableEq

/-- One row of the `webhook_payloads` table (`payload` is the serialized JSON
text stored by `json.dumps`). -/
structure PayloadRow where
  id : Nat
  webhook_id : String
  timestamp : String
  payload : String
deriving Repr, DecidableEq

/-- One row of the `webhook_failures` table. -/
structure FailureRow where
  id : Nat
  webhook_id : String
  timestamp : String
deriving Repr, DecidableEq

/-- The committed database state. -/
structure DbState where
  webhooks : List Webhook
  webhook_payloads : List PayloadRow
  webhook_failures : List FailureRow
  next_payload_id : Nat
  next_failure_id : Nat
deriving Repr, DecidableEq

/-- SQLite errors surfaced to Python as exceptions. -/
inductive DbError where
  | foreignKeyViolation : DbError
deriving Repr, DecidableEq

namespace DbManager

/-- `rstrip('/')` from `create_webhook`. -/
def rstripSlash (s : String) : String :=
  ⟨(s.data.reverse.dropWhile (fun c => c == '/')).reverse⟩

/-- `create_webhook(host_url)`: insert a fresh endpoint row with counters at
their schema defaults (0) and `last_payload_at` NULL, commit, and return
`(webhook_id, full_url)`.  The fresh UUID and the current UTC timestamp are
explicit parameters. -/
def create_webhook (host_url webhook_id created_at : String) (db : DbState) :
    (String × String) × DbState :=
  let full_url := rstripSlash host_url ++ "/webhook/" ++ webhook_id
  ((webhook_id, full_url),
    { db with
        webhooks := db.webhooks ++
          [{ id := webhook_id, url := full_url, created_at := created_at,
             success_count := 0, failure_count := 0,
             last_payload_at := none }] })

/-- `get_webhook(webhook_id)`: `SELECT * FROM webhooks WHERE id = ?`,
first matching row or `None`. -/
def get_webhook (webhook_id : String) (db : DbState) : Option Webhook :=
  db.webhooks.find? (fun w => w.id == webhook_id)

/-- The `UPDATE webhooks SET success_count = success_count + 1,
last_payload_at = ? WHERE id = ?` statement. -/
def bump_success (webhook_id timestamp : String) (ws : List Webhook) :
    List Webhook :=
  ws.map (fun w =>
    if w.id == webhook_id then
      { w with success_count := w.success_count + 1,
               last_payload_at := some timestamp }
    else w)

/-- The `UPDATE webhooks SET failure_count = failure_count + 1 WHERE id = ?`
statement. -/
def bump_failure (webhook_id : String) (ws : List Webhook) : List Webhook :=
  ws.map (fun w =>
    if w.id == webhook_id then
      { w with failure_count := w.failure_count + 1 }
    else w)

/-- `record_successful_payload(webhook_id, data)`: insert the payload row
(serialized with `json.dumps`), bump the success counter and
`last_payload_at`, commit, and return `(lastrowid, timestamp)`.  With foreign
keys ON the insert raises when the webhook id is absent; the uncommitted
transaction is then discarded when the request's connection closes, so the
error case returns the unchanged committed state. -/
def record_successful_payload (webhook_id : String) (data : Json)
    (timestamp : String) (db : DbState) :
    Except DbError (Nat × String) × DbState :=
  if db.webhooks.any (fun w => w.id == webhook_id) then
    (.ok (db.next_payload_id, timestamp),
      { db with
          webhooks := bump_success webhook_id timestamp db.webhooks,
          webhook_payloads := db.webhook_payloads ++
            [{ id := db.next_payload_id, webhook_id := webhook_id,
               timestamp := timestamp, payload := Json.dumps data }],
          next_payload_id := db.next_payload_id + 1 })
  else (.error .foreignKeyViolation, db)

/-- `record_failed_payload(webhook_id)`: bump the failure counter, insert a
failure row, commit.  As above, a foreign-key violation on the insert leaves
the committed state unchanged. -/
def record_failed_payload (webhook_id : String) (timestamp : String)
    (db : DbState) : Except DbError Unit × DbState :=
  if db.webhooks.any (fun w => w.id == webhook_id) then
    (.ok (),
      { db with
          webhooks := bump_failure webhook_id db.webhooks,
          webhook_failures := db.webhook_failures ++
            [{ id := db.next_failure_id, webhook_id := webhook_id,
               timestamp := timestamp }],
          next_failure_id := db.next_failure_id + 1 })
  else (.error .foreignKeyViolation, db)

/-- The `webhook_payloads` rows owned by one webhook, in table order
(`WHERE webhook_id = ?`). -/
def payloads_of (webhook_id : String) (db : DbState) : List PayloadRow :=
  db.webhook_payloads.filter (fun p => p.webhook_id == webhook_id)

/-- `ORDER BY timestamp DESC` over payload rows (SQLite BINARY collation on
the TEXT column; order among equal timestamps is unspecified, the embedding
uses a stable sort). -/
def byTimestampDesc (p q : PayloadRow) : Prop :=
  sqlLe q.timestamp p.timestamp = true

instance : DecidableRel byTimestampDesc := fun _ _ =>
  inferInstanceAs (Decidable (_ = true))

instance : IsTotal PayloadRow byTimestampDesc :=
  ⟨fun p q => sqlLe_total q.timestamp p.timestamp⟩

instance : IsTrans PayloadRow byTimestampDesc :=
  ⟨fun _ _ _ h1 h2 => sqlLe_trans h2 h1⟩

/-- Result shape of the paginated payload query. -/
structure PayloadPage where
  payloads : List PayloadRow
  total_pages : Nat
  current_page : Nat
deriving Repr, DecidableEq

/-- `get_payloads_for_webhook_paginated(webhook_id, page, per_page)`:
`total_pages = ceil(count / per_page)`, rows ordered by timestamp descending
with `LIMIT per_page OFFSET (page - 1) * per_page`. -/
def get_payloads_for_webhook_paginated (webhook_id : String)
    (page per_page : Nat) (db : DbState) : PayloadPage :=
  let total_payloads := (payloads_of webhook_id db).length
  let total_pages := (total_payloads + per_page - 1) / per_page
  let offset := (page - 1) * per_page
  { payloads :=
      (((payloads_of webhook_id db).insertionSort byTimestampDesc).drop
        offset).take per_page,
    total_pages := total_pages,
    current_page := page }

/-- `get_all_payloads_for_webhook(webhook_id)`: all owned rows ordered by
timestamp descending (for the download export). -/
def get_all_payloads_for_webhook (webhook_id : String) (db : DbState) :
    List PayloadRow :=
  (payloads_of webhook_id db).insertionSort byTimestampDesc

/-- `delete_webhook(webhook_id)`: `DELETE FROM webhooks WHERE id = ?`; the
`ON DELETE CASCADE` foreign keys delete the owned payload and failure rows in
the same transaction. -/
def delete_webhook (webhook_id : String) (db : DbState) : DbState :=
  { db with
      webhooks := db.webhooks.filter (fun w => !(w.id == webhook_id)),
      webhook_payloads :=
        db.webhook_payloads.filter (fun p => !(p.webhook_id == webhook_id)),
      webhook_failures :=
        db.webhook_failures.filter (fun f => !(f.webhook_id == webhook_id)) }

/-- `get_stats_today(table)`: `SELECT COUNT(id) FROM table WHERE timestamp >=
datetime('now', '-24 hours')`.  The rows' `timestamp` TEXT values are compared
with the cutoff text under the BINARY collation; `cutoff` stands for the text
SQLite produces for `datetime('now', '-24 hours')`. -/
def get_stats_today (timestamps : List String) (cutoff : String) : Nat :=
  (timestamps.filter (fun ts => sqlLe cutoff ts)).length

/-- `ORDER BY event_date ASC` (SQLite BINARY collation on the date texts). -/
def dateAsc (a b : String) : Prop := sqlLe a b = true

instance : DecidableRel dateAsc := fun _ _ =>
  inferInstanceAs (Decidable (_ = true))

instance : IsTotal String dateAsc := ⟨sqlLe_total⟩

instance : IsTrans String dateAsc := ⟨fun _ _ _ h1 h2 => sqlLe_trans h1 h2⟩

/-- `get_daily_counts(table, date_column)`: `SELECT date(col), COUNT(id) ...
WHERE date(col) >= date('now', '-N days') GROUP BY date ORDER BY date ASC`.
`cutoff` stands for the text of `date('now', '-N days')`. -/
def get_daily_counts (timestamps : List String) (cutoff : String) :
    List (String × Nat) :=
  let dates :=
    (timestamps.filter (fun ts => sqlLe cutoff (dateOf ts))).map dateOf
  ((dates.insertionSort dateAsc).dedup).map (fun d => (d, dates.count d))

end DbManager

/-! ## app.py routes -/

/-- Body of the HTTP response produced by the `webhook` route. -/
inductive RespBody where
  | received (timestamp : String) : RespBody
  | failed (message : String) : RespBody
  | notFound (message : String) : RespBody
  | internalError : RespBody
deriving Repr, DecidableEq

/-- `POST /webhook/<webhook_id>` (the `webhook` view of app.py): look up the
endpoint (404 when absent); then, inside `try`, parse the body leniently as
JSON (`request.get_json(force=True)`) and record a successful payload;
`except Exception` records a failed payload and answers 400.  An exception
escaping the `except` block itself (only possible when the database write
fails) surfaces as a 500.  The notification emit has no effect on the
database or the response. -/
def webhook_route (webhook_id : String) (body : String) (timestamp : String)
    (db : DbState) : (Nat × RespBody) × DbState :=
  match DbManager.get_webhook webhook_id db with
  | none =>
      ((404, .notFound ("Webhook ID " ++ webhook_id ++ " not found.")), db)
  | some _ =>
    match Json.loads body with
    | some data =>
      match DbManager.record_successful_payload webhook_id data timestamp db
        with
      | (.ok (_, ts), db') => ((200, .received ts), db')
      | (.error _, db') =>
        match DbManager.record_failed_payload webhook_id timestamp db' with
        | (.ok (), db'') =>
            ((400, .failed "Failed to process request"), db'')
        | (.error _, db'') => ((500, .internalError), db'')
    | none =>
      match DbManager.record_failed_payload webhook_id timestamp db with
      | (.ok (), db') => ((400, .failed "Failed to process request"), db')
      | (.error _, db') => ((500, .internalError), db')

/-- `GET /download/<webhook_id>` content (the `download_webhook_data` view):
every owned payload row, newest first, re-parsed from its stored serialized
text into a `{timestamp, payload}` entry. -/
def download_webhook_data (webhook_id : String) (db : DbState) :
    List (String × Option Json) :=
  (DbManager.get_all_payloads_for_webhook webhook_id db).map
    (fun row => (row.timestamp, Json.loads row.payload))

/-- The `success_count` column of the `webhooks` table, in table order. -/
def successCounts (db : DbState) : List Nat :=
  db.webhooks.map (fun w => w.success_count)

/-- The `failure_count` column of the `webhooks` table, in table order. -/
def failureCounts (db : DbState) : List Nat :=
  db.webhooks.map (fun w => w.failure_count)

/-! ## Bookkeeping lemmas about the table operations -/

namespace DbManager

theorem find?_bump_failure (webhook_id : String) (ws : List Webhook) :
    (bump_failure webhook_id ws).find? (fun w => w.id == webhook_id) =
      (ws.find? (fun w => w.id == webhook_id)).map
        (fun w => { w with failure_count := w.failure_count + 1 }) := by
  rw [bump_failure, List.find?_map]
  have hcomp : ((fun w => w.id == webhook_id) ∘ fun w =>
      if w.id == webhook_id then
        { w with failure_count := w.failure_count + 1 } else w) =
      (fun (w : Webhook) => w.id == webhook_id) := by
    funext w
    by_cases h : w.id = webhook_id <;> simp [h]
  rw [hcomp]
  cases hf : ws.find? (fun w => w.id == webhook_id) with
  | none => rfl
  | some w =>
    have hp := List.find?_some hf
    have heq : w.id = webhook_id := by simpa using hp
    simp [heq]

theorem find?_bump_success (webhook_id ts : String) (ws : List Webhook) :
    (bump_success webhook_id ts ws).find? (fun w => w.id == webhook_id) =
      (ws.find? (fun w => w.id == webhook_id)).map
        (fun w => { w with success_count := w.success_count + 1,
                           last_payload_at := some ts }) := by
  rw [bump_success, List.find?_map]
  have hcomp : ((fun w => w.id == webhook_id) ∘ fun w =>
      if w.id == webhook_id then
        { w with success_count := w.success_count + 1,
                 last_payload_at := some ts } else w) =
      (fun (w : Webhook) => w.id == webhook_id) := by
    funext w
    by_cases h : w.id = webhook_id <;> simp [h]
  rw [hcomp]
  cases hf : ws.find? (fun w => w.id == webhook_id) with
  | none => rfl
  | some w =>
    have hp := List.find?_some hf
    have heq : w.id = webhook_id := by simpa using hp
    simp [heq]

theorem successCount_bump_failure (webhook_id : String) (ws : List Webhook) :
    (bump_failure webhook_id ws).map (fun w => w.success_count) =
      ws.map (fun w => w.success_count) := by
  rw [bump_failure, List.map_map]
  apply List.map_congr_left
  intro w _
  by_cases h : w.id = webhook_id <;> simp [h]

theorem failureCount_bump_success (webhook_id ts : String)
    (ws : List Webhook) :
    (bump_success webhook_id ts ws).map (fun w => w.failure_count) =
      ws.map (fun w => w.failure_count) := by
  rw [bump_success, List.map_map]
  apply List.map_congr_left
  intro w _
  by_cases h : w.id = webhook_id <;> simp [h]

theorem ids_bump_success (webhook_id ts : String) (ws : List Webhook) :
    (bump_success webhook_id ts ws).map (fun w => w.id) =
      ws.map (fun w => w.id) := by
  rw [bump_success, List.map_map]
  apply List.map_congr_left
  intro w _
  by_cases h : w.id = webhook_id <;> simp [h]

theorem any_eq_true_of_get_webhook (webhook_id : String) (db : DbState)
    (w : Webhook) (h : get_webhook webhook_id db = some w) :
    db.webhooks.any (fun w => w.id == webhook_id) = true := by
  have h' : db.webhooks.find? (fun w => w.id == webhook_id) = some w := h
  have hp := List.find?_some h'
  exact List.any_eq_true.mpr ⟨w, List.mem_of_find?_eq_some h', hp⟩

end DbManager

/-! ## C1, C2: the ingestion request paths -/

/-- C1: for an existing endpoint, an ingestion request whose body fails to
parse as JSON bumps that endpoint's `failure_count` by exactly 1, appends
exactly one row to `webhook_failures`, leaves every `success_count` and the
`webhook_payloads` table unchanged, and answers 400 with an error message. -/
theorem webhook_route_parse_failure (webhook_id body timestamp : String)
    (db : DbState) (w : Webhook)
    (hw : DbManager.get_webhook webhook_id db = some w)
    (hparse : Json.loads body = none) :
    DbManager.get_webhook webhook_id (webhook_route webhook_id body timestamp
        db).2 = some { w with failure_count := w.failure_count + 1 } ∧
    (webhook_route webhook_id body timestamp db).2.webhook_failures =
      db.webhook_failures ++
        [{ id := db.next_failure_id, webhook_id := webhook_id,
           timestamp := timestamp }] ∧
    successCounts (webhook_route webhook_id body timestamp db).2 =
      successCounts db ∧
    (webhook_route webhook_id body timestamp db).2.webhook_payloads =
      db.webhook_payloads ∧
    (webhook_route webhook_id body timestamp db).1.1 = 400 ∧
    ∃ msg, (webhook_route webhook_id body timestamp db).1.2 =
      RespBody.failed msg := by
  have hany := DbManager.any_eq_true_of_get_webhook webhook_id db w hw
  have hroute : webhook_route webhook_id body timestamp db =
      ((400, .failed "Failed to process request"),
        { db with
            webhooks := DbManager.bump_failure webhook_id db.webhooks,
            webhook_failures := db.webhook_failures ++
              [{ id := db.next_failure_id, webhook_id := webhook_id,
                 timestamp := timestamp }],
            next_failure_id := db.next_failure_id + 1 }) := by
    rw [webhook_route, hw, hparse, DbManager.record_failed_payload, if_pos hany]
  rw [hroute]
  refine ⟨?_, rfl, ?_, rfl, rfl, ⟨_, rfl⟩⟩
  · show (DbManager.bump_failure webhook_id db.webhooks).find? _ = _
    rw [DbManager.find?_bump_failure]
    rw [DbManager.get_webhook] at hw
    rw [hw]
    rfl
  · show (DbManager.bump_failure webhook_id db.webhooks).map _ = _
    exact DbManager.successCount_bump_failure webhook_id db.webhooks

/-- A single-endpoint database used by the concrete witnesses. -/
def sampleHook : Webhook :=
  { id := "wid0", url := "u", created_at := "t0", success_count := 0,
    failure_count := 0, last_payload_at := none }

/-- The committed state holding just `sampleHook`. -/
def sampleDb : DbState :=
  { webhooks := [sampleHook], webhook_payloads := [], webhook_failures := [],
    next_payload_id := 1, next_failure_id := 1 }

/-- Witness for C1 at a concrete endpoint and a non-JSON body. -/
theorem webhook_route_parse_failure_witness :
    (DbManager.get_webhook "wid0" sampleDb = some sampleHook ∧
     Json.loads "not json" = none) ∧
    (webhook_route "wid0" "not json" "t1" sampleDb).1.1 = 400 :=
  ⟨⟨rfl, rfl⟩,
    (webhook_route_parse_failure "wid0" "not json" "t1" sampleDb sampleHook
      rfl rfl).2.2.2.2.1⟩

/-- Observable effects of the success path of one ingestion request:
one more payload row, the endpoint's `success_count` up by one, the failure
table and all `failure_count`s untouched. -/
def SuccessPath (db db' : DbState) (webhook_id : String) : Prop :=
  db'.webhook_payloads.length = db.webhook_payloads.length + 1 ∧
  (DbManager.get_webhook webhook_id db').map (fun w => w.success_count) =
    (DbManager.get_webhook webhook_id db).map
      (fun w => w.success_count + 1) ∧
  db'.webhook_failures = db.webhook_failures ∧
  failureCounts db' = failureCounts db

/-- Observable effects of the failure path of one ingestion request:
one more failure row, the endpoint's `failure_count` up by one, the payload
table and all `success_count`s untouched. -/
def FailurePath (db db' : DbState) (webhook_id : String) : Prop :=
  db'.webhook_failures.length = db.webhook_failures.length + 1 ∧
  (DbManager.get_webhook webhook_id db').map (fun w => w.failure_count) =
    (DbManager.get_webhook webhook_id db).map
      (fun w => w.failure_count + 1) ∧
  db'.webhook_payloads = db.webhook_payloads ∧
  successCounts db' = successCounts db

/-- C2: every ingestion request to an existing endpoint executes exactly one
of the success path and the failure path — never both, never neither. -/
theorem webhook_route_exactly_one_path (webhook_id body timestamp : String)
    (db : DbState) (w : Webhook)
    (hw : DbManager.get_webhook webhook_id db = some w) :
    Xor' (SuccessPath db (webhook_route webhook_id body timestamp db).2
            webhook_id)
         (FailurePath db (webhook_route webhook_id body timestamp db).2
            webhook_id) := by
  have hany := DbManager.any_eq_true_of_get_webhook webhook_id db w hw
  cases hparse : Json.loads body with
  | some data =>
    have hroute : (webhook_route webhook_id body timestamp db).2 =
        { db with
            webhooks := DbManager.bump_success webhook_id timestamp
              db.webhooks,
            webhook_payloads := db.webhook_payloads ++
              [{ id := db.next_payload_id, webhook_id := webhook_id,
                 timestamp := timestamp, payload := Json.dumps data }],
            next_payload_id := db.next_payload_id + 1 } := by
      simp only [webhook_route, hw, hparse,
        DbManager.record_successful_payload, hany, if_true]
    rw [hroute]
    left
    constructor
    · refine ⟨by simp, ?_, rfl, ?_⟩
      · simp only [DbManager.get_webhook] at hw ⊢
        rw [DbManager.find?_bump_success, hw]
        rfl
      · show (DbManager.bump_success webhook_id timestamp
            db.webhooks).map _ = _
        exact DbManager.failureCount_bump_success webhook_id timestamp
          db.webhooks
    · intro hfail
      have hlen := hfail.1
      simp at hlen
  | none =>
    have hroute : (webhook_route webhook_id body timestamp db).2 =
        { db with
            webhooks := DbManager.bump_failure webhook_id db.webhooks,
            webhook_failures := db.webhook_failures ++
              [{ id := db.next_failure_id, webhook_id := webhook_id,
                 timestamp := timestamp }],
            next_failure_id := db.next_failure_id + 1 } := by
      simp only [webhook_route, hw, hparse,
        DbManager.record_failed_payload, hany, if_true]
    rw [hroute]
    right
    constructor
    · refine ⟨by simp, ?_, rfl, ?_⟩
      · simp only [DbManager.get_webhook] at hw ⊢
        rw [DbManager.find?_bump_failure, hw]
        rfl
      · show (DbManager.bump_failure webhook_id db.webhooks).map _ = _
        exact DbManager.successCount_bump_failure webhook_id db.webhooks
    · intro hsucc
      have hlen := hsucc.1
      simp at hlen

/-- Witness for C2: the concrete endpoint of `sampleDb` with a well-formed
JSON body. -/
theorem webhook_route_exactly_one_path_witness :
    DbManager.get_webhook "wid0" sampleDb = some sampleHook ∧
    Xor' (SuccessPath sampleDb
            (webhook_route "wid0" "{}" "t1" sampleDb).2 "wid0")
         (FailurePath sampleDb
            (webhook_route "wid0" "{}" "t1" sampleDb).2 "wid0") :=
  ⟨rfl, webhook_route_exactly_one_path "wid0" "{}" "t1" sampleDb sampleHook
    rfl⟩

/-! ## C4: a run of successful ingestions -/

namespace DbManager

/-- Fold a sequence of committed `record_successful_payload` calls (each item
is the parsed body with its receipt timestamp). -/
def ingest_successes (webhook_id : String) (items : List (Json × String))
    (db : DbState) : DbState :=
  items.foldl
    (fun d it => (record_successful_payload webhook_id it.1 it.2 d).2) db

theorem any_bump_success (webhook_id ts : String) (ws : List Webhook) :
    (bump_success webhook_id ts ws).any (fun w => w.id == webhook_id) =
      ws.any (fun w => w.id == webhook_id) := by
  rw [bump_success, List.any_map]
  congr 1
  funext w
  by_cases h : w.id = webhook_id <;> simp [h]

theorem ingest_successes_spec (webhook_id : String) :
    ∀ (items : List (Json × String)) (db : DbState),
      db.webhooks.any (fun w => w.id == webhook_id) = true →
      (ingest_successes webhook_id items db).webhooks.map
          (fun w => (w.id, w.success_count)) =
        db.webhooks.map (fun w =>
          (w.id, if w.id == webhook_id then w.success_count + items.length
                 else w.success_count)) ∧
      (payloads_of webhook_id (ingest_successes webhook_id items db)).length
        = (payloads_of webhook_id db).length + items.length := by
  intro items
  induction items with
  | nil =>
    intro db _
    constructor
    · apply List.map_congr_left
      intro w _
      by_cases h : w.id = webhook_id <;> simp [h]
    · simp [ingest_successes]
  | cons it its ih =>
    intro db hany
    have hstep : (record_successful_payload webhook_id it.1 it.2 db).2 =
        { db with
            webhooks := bump_success webhook_id it.2 db.webhooks,
            webhook_payloads := db.webhook_payloads ++
              [{ id := db.next_payload_id, webhook_id := webhook_id,
                 timestamp := it.2, payload := Json.dumps it.1 }],
            next_payload_id := db.next_payload_id + 1 } := by
      simp only [record_successful_payload, hany, if_true]
    have hfold : ingest_successes webhook_id (it :: its) db =
        ingest_successes webhook_id its
          (record_successful_payload webhook_id it.1 it.2 db).2 := rfl
    have hany' : ((record_successful_payload webhook_id it.1 it.2
        db).2).webhooks.any (fun w => w.id == webhook_id) = true := by
      rw [hstep]
      show (bump_success webhook_id it.2 db.webhooks).any _ = true
      rw [any_bump_success]
      exact hany
    obtain ⟨ihmap, ihlen⟩ := ih _ hany'
    constructor
    · rw [hfold, ihmap, hstep]
      show (bump_success webhook_id it.2 db.webhooks).map _ = _
      rw [bump_success, List.map_map]
      apply List.map_congr_left
      intro w _
      by_cases h : w.id = webhook_id <;> simp [h] <;> omega
    · rw [hfold, ihlen, hstep]
      show (payloads_of webhook_id { db with
          webhooks := bump_success webhook_id it.2 db.webhooks,
          webhook_payloads := db.webhook_payloads ++
            [{ id := db.next_payload_id, webhook_id := webhook_id,
               timestamp := it.2, payload := Json.dumps it.1 }],
          next_payload_id := db.next_payload_id + 1 }).length + its.length
        = _
      rw [payloads_of]
      show (List.filter _ (db.webhook_payloads ++ [_])).length + _ = _
      rw [List.filter_append]
      simp [payloads_of]
      omega

end DbManager

/-- C4: starting from an endpoint with `success_count = 0` and no owned
payload rows, a committed sequence of N successful ingestions leaves
`success_count = N` and exactly N owned payload rows — the counter equals the
number of the endpoint's Payload Records. -/
theorem ingest_successes_count (webhook_id : String)
    (items : List (Json × String)) (db : DbState)
    (hany : db.webhooks.any (fun w => w.id == webhook_id) = true)
    (h0 : ∀ w ∈ db.webhooks, w.id = webhook_id → w.success_count = 0)
    (hp0 : (DbManager.payloads_of webhook_id db).length = 0) :
    (∀ w ∈ (DbManager.ingest_successes webhook_id items db).webhooks,
        w.id = webhook_id → w.success_count = items.length) ∧
    (DbManager.payloads_of webhook_id
        (DbManager.ingest_successes webhook_id items db)).length =
      items.length := by
  obtain ⟨hmap, hlen⟩ := DbManager.ingest_successes_spec webhook_id items db
    hany
  constructor
  · intro w hw hid
    have hmem : (w.id, w.success_count) ∈
        (DbManager.ingest_successes webhook_id items db).webhooks.map
          (fun w => (w.id, w.success_count)) :=
      List.mem_map_of_mem _ hw
    rw [hmap] at hmem
    obtain ⟨w0, hw0, heq⟩ := List.mem_map.mp hmem
    have hid0 : w0.id = w.id := (Prod.mk.injEq _ _ _ _).mp heq |>.1
    have hcnt := (Prod.mk.injEq _ _ _ _).mp heq |>.2
    have hzero : w0.success_count = 0 := h0 w0 hw0 (hid0.trans hid)
    rw [hid0.trans hid] at hcnt
    simp [hzero] at hcnt
    omega
  · rw [hlen, hp0]
    omega

/-- Witness for C4: two successful ingestions into `sampleDb`. -/
theorem ingest_successes_count_witness :
    (sampleDb.webhooks.any (fun w => w.id == "wid0") = true ∧
     (∀ w ∈ sampleDb.webhooks, w.id = "wid0" → w.success_count = 0) ∧
     (DbManager.payloads_of "wid0" sampleDb).length = 0) ∧
    ((∀ w ∈ (DbManager.ingest_successes "wid0"
          [(Json.null, "t1"), (Json.bool true, "t2")] sampleDb).webhooks,
        w.id = "wid0" → w.success_count = 2) ∧
     (DbManager.payloads_of "wid0"
        (DbManager.ingest_successes "wid0"
          [(Json.null, "t1"), (Json.bool true, "t2")] sampleDb)).length = 2)
    :=
  ⟨⟨by decide, by decide, by decide⟩,
    ingest_successes_count "wid0" [(Json.null, "t1"), (Json.bool true, "t2")]
      sampleDb (by decide) (by decide) (by decide)⟩

/-! ## C5: endpoint creation -/

/-- C5 counterexample: the claim `fullURL = baseURL + "/webhook/" + id` fails
for a base URL with a trailing slash (the shape Flask's `request.host_url`
always has), because `create_webhook` strips trailing slashes first. -/
theorem create_webhook_url_counterexample :
    (DbManager.create_webhook "http://h/" "abc" "t0" sampleDb).1.2 ≠
      "http://h/" ++ "/webhook/" ++ "abc" := by decide

/-- C5 (amended): `create_webhook(baseURL)` returns the fresh id and
`fullURL = rstrip(baseURL, '/') + "/webhook/" + id`, and `get_webhook`
immediately afterwards returns a row with that id and URL, both counters 0,
and `last_payload_at` NULL. -/
theorem create_webhook_spec (host_url webhook_id created_at : String)
    (db : DbState) (hfresh : ∀ w ∈ db.webhooks, w.id ≠ webhook_id) :
    (DbManager.create_webhook host_url webhook_id created_at db).1.1 =
      webhook_id ∧
    (DbManager.create_webhook host_url webhook_id created_at db).1.2 =
      DbManager.rstripSlash host_url ++ "/webhook/" ++ webhook_id ∧
    DbManager.get_webhook webhook_id
        (DbManager.create_webhook host_url webhook_id created_at db).2 =
      some { id := webhook_id,
             url := DbManager.rstripSlash host_url ++ "/webhook/" ++
               webhook_id,
             created_at := created_at, success_count := 0,
             failure_count := 0, last_payload_at := none } := by
  refine ⟨rfl, rfl, ?_⟩
  show (db.webhooks ++ [_]).find? _ = _
  rw [List.find?_append]
  have hnone : db.webhooks.find? (fun w => w.id == webhook_id) = none :=
    List.find?_eq_none.mpr (fun w hw => by simp [hfresh w hw])
  rw [hnone]
  simp

/-- Witness for the amended C5 on `sampleDb` with a fresh id. -/
theorem create_webhook_spec_witness :
    (∀ w ∈ sampleDb.webhooks, w.id ≠ "newid") ∧
    DbManager.get_webhook "newid"
        (DbManager.create_webhook "http://h/" "newid" "t9" sampleDb).2 =
      some { id := "newid",
             url := DbManager.rstripSlash "http://h/" ++ "/webhook/" ++
               "newid",
             created_at := "t9", success_count := 0,
             failure_count := 0, last_payload_at := none } :=
  ⟨by decide,
    (create_webhook_spec "http://h/" "newid" "t9" sampleDb (by decide)).2.2⟩

/-! ## C6: cascading deletion -/

/-- C6: `delete_webhook(id)` removes the endpoint row together with every
payload and failure row it owns, keeps every row owned by other endpoints,
and a subsequent `get_webhook(id)` returns `None`. -/
theorem delete_webhook_spec (webhook_id : String) (db : DbState) :
    DbManager.get_webhook webhook_id
      (DbManager.delete_webhook webhook_id db) = none ∧
    (∀ w, w ∈ (DbManager.delete_webhook webhook_id db).webhooks ↔
       w ∈ db.webhooks ∧ w.id ≠ webhook_id) ∧
    (∀ p, p ∈ (DbManager.delete_webhook webhook_id db).webhook_payloads ↔
       p ∈ db.webhook_payloads ∧ p.webhook_id ≠ webhook_id) ∧
    (∀ f, f ∈ (DbManager.delete_webhook webhook_id db).webhook_failures ↔
       f ∈ db.webhook_failures ∧ f.webhook_id ≠ webhook_id) := by
  refine ⟨?_, ?_, ?_, ?_⟩
  · apply List.find?_eq_none.mpr
    intro w hw
    have := (List.mem_filter.mp hw).2
    simp at this
    simp [this]
  · intro w
    rw [DbManager.delete_webhook]
    simp [List.mem_filter]
  · intro p
    rw [DbManager.delete_webhook]
    simp [List.mem_filter]
  · intro f
    rw [DbManager.delete_webhook]
    simp [List.mem_filter]

/-! ## C10: failure recording for an unknown endpoint id -/

/-- C10: with foreign keys ON, `record_failed_payload` for an id absent from
the `webhooks` table raises an integrity error and commits nothing; even the
preceding `UPDATE` statement matches no row. -/
theorem record_failed_payload_unknown_id (webhook_id ts : String)
    (db : DbState) (h : ∀ w ∈ db.webhooks, w.id ≠ webhook_id) :
    DbManager.record_failed_payload webhook_id ts db =
      (.error .foreignKeyViolation, db) ∧
    DbManager.bump_failure webhook_id db.webhooks = db.webhooks := by
  have hany : db.webhooks.any (fun w => w.id == webhook_id) = false :=
    List.any_eq_false.mpr (fun w hw => by simp [h w hw])
  constructor
  · simp only [DbManager.record_failed_payload, hany]
    rfl
  · rw [DbManager.bump_failure]
    have hid : db.webhooks.map (fun w =>
        if w.id == webhook_id then
          { w with failure_count := w.failure_count + 1 } else w) =
        db.webhooks.map id :=
      List.map_congr_left (fun w hw => by simp [h w hw])
    rw [hid, List.map_id]

/-- Witness for C10: an id not present in `sampleDb`. -/
theorem record_failed_payload_unknown_id_witness :
    (∀ w ∈ sampleDb.webhooks, w.id ≠ "ghost") ∧
    DbManager.record_failed_payload "ghost" "t1" sampleDb =
      (.error .foreignKeyViolation, sampleDb) :=
  ⟨by decide,
    (record_failed_payload_unknown_id "ghost" "t1" sampleDb (by decide)).1⟩

/-! ## C7: pagination with 45 payload rows and page size 20 -/

/-- C7: with exactly 45 owned payload rows and page size 20, pages 1 and 2
hold 20 rows, page 3 holds 5, page 4 is empty without error, and
`total_pages = ceil(45/20) = 3` on every page request. -/
theorem pagination_45_rows (webhook_id : String) (db : DbState)
    (h45 : (DbManager.payloads_of webhook_id db).length = 45) :
    (DbManager.get_payloads_for_webhook_paginated webhook_id 1 20
      db).payloads.length = 20 ∧
    (DbManager.get_payloads_for_webhook_paginated webhook_id 2 20
      db).payloads.length = 20 ∧
    (DbManager.get_payloads_for_webhook_paginated webhook_id 3 20
      db).payloads.length = 5 ∧
    (DbManager.get_payloads_for_webhook_paginated webhook_id 4 20
      db).payloads = [] ∧
    ∀ page, (DbManager.get_payloads_for_webhook_paginated webhook_id page 20
      db).total_pages = 3 := by
  have hsorted : ((DbManager.payloads_of webhook_id db).insertionSort
      DbManager.byTimestampDesc).length = 45 := by
    rw [(List.perm_insertionSort _ _).length_eq, h45]
  refine ⟨?_, ?_, ?_, ?_, ?_⟩
  · simp only [DbManager.get_payloads_for_webhook_paginated]
    simp [List.length_take, List.length_drop, hsorted]
  · simp only [DbManager.get_payloads_for_webhook_paginated]
    simp [List.length_take, List.length_drop, hsorted]
  · simp only [DbManager.get_payloads_for_webhook_paginated]
    simp [List.length_take, List.length_drop, hsorted]
  · simp only [DbManager.get_payloads_for_webhook_paginated]
    rw [List.drop_eq_nil_of_le (by rw [hsorted]; omega)]
    simp
  · intro page
    simp only [DbManager.get_payloads_for_webhook_paginated]
    rw [h45]

/-- A state holding 45 payload rows for the sample endpoint. -/
def sample45Db : DbState :=
  { webhooks := [sampleHook],
    webhook_payloads := (List.range 45).map (fun i =>
      { id := i, webhook_id := "wid0", timestamp := "t", payload := "null" }),
    webhook_failures := [], next_payload_id := 45, next_failure_id := 1 }

/-- Witness for C7 on the 45-row state. -/
theorem pagination_45_rows_witness :
    (DbManager.payloads_of "wid0" sample45Db).length = 45 ∧
    (DbManager.get_payloads_for_webhook_paginated "wid0" 4 20
      sample45Db).payloads = [] :=
  ⟨by decide, (pagination_45_rows "wid0" sample45Db (by decide)).2.2.2.1⟩

/-! ## C3: the "last 24 hours" statistic

`get_stats_today` compares the stored `isoformat()` timestamps (date and time
separated by `'T'`) against `datetime('now', '-24 hours')` (separated by a
space) as TEXT.  Since `'T' > ' '`, every row whose calendar date equals the
cutoff's date compares greater than the cutoff, even when it is older than
24 hours. -/

/-- C3 (refuting instance): with now = 2026-10-12 12:00:00 UTC, the cutoff
`datetime('now', '-24 hours')` is exactly 86400 seconds in the past, yet a
row stored at 2026-10-11T00:30:00+00:00 — 127800 seconds (35.5 hours) old —
is counted by `get_stats_today`. -/
theorem get_stats_today_counts_row_older_than_24h :
    UtcTime.epochSeconds ⟨2026, 10, 12, 12, 0, 0⟩ -
      UtcTime.epochSeconds ⟨2026, 10, 11, 12, 0, 0⟩ = 86400 ∧
    UtcTime.epochSeconds ⟨2026, 10, 12, 12, 0, 0⟩ -
      UtcTime.epochSeconds ⟨2026, 10, 11, 0, 30, 0⟩ = 127800 ∧
    127800 > 86400 ∧
    DbManager.get_stats_today
      [UtcTime.isoformat ⟨2026, 10, 11, 0, 30, 0⟩]
      (UtcTime.sqliteText ⟨2026, 10, 11, 12, 0, 0⟩) = 1 := by decide

/-! ## C9: daily event counts -/

theorem countP_congr_mem {α : Type} (l : List α) (p q : α → Bool)
    (h : ∀ a ∈ l, p a = q a) : l.countP p = l.countP q := by
  induction l with
  | nil => rfl
  | cons x xs ih =>
    rw [List.countP_cons, List.countP_cons, h x (by simp),
      ih (fun a ha => h a (by simp [ha]))]

/-- Membership characterization of the `GROUP BY` result: a pair is reported
iff its date occurs among the in-window dates and its count is that date's
multiplicity. -/
theorem get_daily_counts_mem (rows : List String) (cutoff d : String)
    (c : Nat) :
    (d, c) ∈ DbManager.get_daily_counts rows cutoff ↔
      (d ∈ (rows.filter (fun ts => sqlLe cutoff (dateOf ts))).map dateOf ∧
       c = ((rows.filter (fun ts => sqlLe cutoff (dateOf ts))).map
         dateOf).count d) := by
  simp only [DbManager.get_daily_counts]
  constructor
  · intro h
    obtain ⟨d0, hd0, heq⟩ := List.mem_map.mp h
    obtain ⟨h1, h2⟩ := (Prod.mk.injEq _ _ _ _).mp heq
    subst h1
    rw [List.mem_dedup, (List.perm_insertionSort _ _).mem_iff] at hd0
    exact ⟨hd0, h2.symm⟩
  · rintro ⟨hd, rfl⟩
    apply List.mem_map_of_mem
    rw [List.mem_dedup, (List.perm_insertionSort _ _).mem_iff]
    exact hd

/-- The multiplicity of a date among the in-window dates equals the number of
rows dated on it, provided the date itself is in the window. -/
theorem dates_count_eq (rows : List String) (cutoff d : String)
    (hcut : sqlLe cutoff d = true) :
    ((rows.filter (fun ts => sqlLe cutoff (dateOf ts))).map dateOf).count d =
      (rows.filter (fun ts => dateOf ts == d)).length := by
  show ((rows.filter _).map dateOf).countP (fun x => x == d) = _
  rw [List.countP_map, List.countP_filter]
  rw [countP_congr_mem _ _ (fun ts => dateOf ts == d) ?_]
  · exact List.countP_eq_length_filter _ _
  · intro ts _
    by_cases heq : dateOf ts = d
    · simp [Function.comp, heq, hcut]
    · simp [Function.comp, heq]

/-- C9: `get_daily_counts` reports exactly the UTC calendar dates inside the
trailing window (`cutoff ≤ date`, and no later than today's date when no
stored timestamp is in the future) that have at least one event; each count
equals the number of rows dated on that date; the pairs are in strictly
ascending date order; dates with zero events are omitted. -/
theorem get_daily_counts_spec (rows : List String) (cutoff today : String)
    (htoday : ∀ ts ∈ rows, sqlLe (dateOf ts) today = true) :
    (∀ dc ∈ DbManager.get_daily_counts rows cutoff,
        sqlLe cutoff dc.1 = true ∧ sqlLe dc.1 today = true ∧ 0 < dc.2 ∧
        dc.2 = (rows.filter (fun ts => dateOf ts == dc.1)).length) ∧
    (∀ d, sqlLe cutoff d = true → (∃ ts ∈ rows, dateOf ts = d) →
        ∃ c, (d, c) ∈ DbManager.get_daily_counts rows cutoff) ∧
    ((DbManager.get_daily_counts rows cutoff).map Prod.fst).Pairwise
      (fun a b => sqlLe a b = true ∧ a ≠ b) := by
  refine ⟨?_, ?_, ?_⟩
  · rintro ⟨d, c⟩ hdc
    obtain ⟨hd, hc⟩ := (get_daily_counts_mem rows cutoff d c).mp hdc
    obtain ⟨ts, hts, hdts⟩ := List.mem_map.mp hd
    have htsrows : ts ∈ rows := (List.mem_filter.mp hts).1
    have hPts : sqlLe cutoff (dateOf ts) = true := by
      simpa using (List.mem_filter.mp hts).2
    have hcutd : sqlLe cutoff d = true := hdts ▸ hPts
    refine ⟨hcutd, hdts ▸ htoday ts htsrows, ?_, ?_⟩
    · rw [hc]
      exact List.count_pos_iff.mpr hd
    · rw [hc]
      exact dates_count_eq rows cutoff d hcutd
  · intro d hcut hex
    obtain ⟨ts, hts, hdts⟩ := hex
    subst hdts
    refine ⟨_, (get_daily_counts_mem rows cutoff _ _).mpr ⟨?_, rfl⟩⟩
    exact List.mem_map_of_mem _
      (List.mem_filter.mpr ⟨hts, by simp [hcut]⟩)
  · simp only [DbManager.get_daily_counts, List.map_map]
    have hid : (Prod.fst ∘ fun d => (d,
        (((rows.filter (fun ts => sqlLe cutoff (dateOf ts))).map
          dateOf)).count d)) = id := funext fun d => rfl
    rw [hid, List.map_id]
    have hsorted := List.sorted_insertionSort DbManager.dateAsc
      ((rows.filter (fun ts => sqlLe cutoff (dateOf ts))).map dateOf)
    have hpair := List.Pairwise.sublist (List.dedup_sublist _) hsorted
    have hnodup := List.nodup_dedup
      (((rows.filter (fun ts => sqlLe cutoff (dateOf ts))).map
        dateOf).insertionSort DbManager.dateAsc)
    exact hpair.and hnodup

/-- Witness for C9: two rows on different dates. -/
theorem get_daily_counts_spec_witness :
    (∀ ts ∈ [UtcTime.isoformat ⟨2026, 10, 11, 0, 30, 0⟩,
             UtcTime.isoformat ⟨2026, 10, 12, 6, 0, 0⟩],
        sqlLe (dateOf ts) "2026-10-12" = true) ∧
    ((DbManager.get_daily_counts
        [UtcTime.isoformat ⟨2026, 10, 11, 0, 30, 0⟩,
         UtcTime.isoformat ⟨2026, 10, 12, 6, 0, 0⟩]
        "2026-10-05").map Prod.fst).Pairwise
      (fun a b => sqlLe a b = true ∧ a ≠ b) :=
  ⟨by decide,
    (get_daily_counts_spec
      [UtcTime.isoformat ⟨2026, 10, 11, 0, 30, 0⟩,
       UtcTime.isoformat ⟨2026, 10, 12, 6, 0, 0⟩]
      "2026-10-05" "2026-10-12" (by decide)).2.2⟩

/-! ## C8: the download export round-trips the stored JSON

First, `Json.loads` inverts `Json.dumps`.  The proof works over the
serialized character stream. -/

namespace Json

theorem skipWs_cons (c : Char) (l : List Char) (h : isJsonWs c = false) :
    skipWs (c :: l) = c :: l := by
  simp [skipWs, List.dropWhile_cons, h]

theorem skipWs_space (l : List Char) : skipWs (' ' :: l) = skipWs l := by
  simp [skipWs, List.dropWhile_cons, show isJsonWs ' ' = true from rfl]

/-- The input ahead does not start with a decimal digit (so a number literal
just before it is parsed greedily but correctly). -/
def notDigitStart : List Char → Prop
  | [] => True
  | c :: _ => c.isDigit = false

theorem digitChar_isDigit (d : Nat) (hd : d < 10) :
    (digitChar d).isDigit = true := by
  interval_cases d <;> decide

theorem digitChar_toNat (d : Nat) (hd : d < 10) :
    (digitChar d).toNat = 48 + d := by
  interval_cases d <;> decide

theorem natToChars_ne_nil (n : Nat) : natToChars n ≠ [] := by
  rw [natToChars]
  split
  · simp
  · simp

theorem natToChars_digits (n : Nat) :
    ∀ c ∈ natToChars n, c.isDigit = true := by
  induction n using Nat.strong_induction_on with
  | _ n ih =>
    rw [natToChars]
    split
    · intro c hc
      rw [List.mem_singleton] at hc
      subst hc
      exact digitChar_isDigit n (by omega)
    · intro c hc
      cases List.mem_append.mp hc with
      | inl hrec =>
        exact ih (n / 10) (Nat.div_lt_self (by omega) (by omega)) c hrec
      | inr hlast =>
        have hcd : c = digitChar (n % 10) := List.mem_singleton.mp hlast
        exact hcd ▸ digitChar_isDigit (n % 10) (Nat.mod_lt _ (by omega))

theorem digitsVal_append_singleton (l : List Char) (c : Char) :
    digitsVal (l ++ [c]) = digitsVal l * 10 + (c.toNat - 48) := by
  rw [digitsVal, List.foldl_append]
  rfl

theorem digitsVal_natToChars (n : Nat) : digitsVal (natToChars n) = n := by
  induction n using Nat.strong_induction_on with
  | _ n ih =>
    rw [natToChars]
    split
    · have h1 : digitsVal [digitChar n] =
          0 * 10 + ((digitChar n).toNat - 48) := rfl
      rw [h1, digitChar_toNat n (by omega)]
      omega
    · rw [digitsVal_append_singleton,
        ih (n / 10) (Nat.div_lt_self (by omega) (by omega)),
        digitChar_toNat (n % 10) (Nat.mod_lt _ (by omega))]
      omega

theorem takeWhile_digits (l r : List Char)
    (hl : ∀ c ∈ l, c.isDigit = true) (hr : notDigitStart r) :
    (l ++ r).takeWhile Char.isDigit = l ∧
    (l ++ r).dropWhile Char.isDigit = r := by
  induction l with
  | nil =>
    cases r with
    | nil => simp
    | cons c cs =>
      have : c.isDigit = false := hr
      simp [List.takeWhile_cons, List.dropWhile_cons, this]
  | cons c cs ih =>
    have hc : c.isDigit = true := hl c (by simp)
    obtain ⟨ht, hd⟩ := ih (fun a ha => hl a (by simp [ha])) 
    simp [List.takeWhile_cons, List.dropWhile_cons, hc, ht, hd]

theorem parseNum_natToChars (n : Nat) (r : List Char)
    (hr : notDigitStart r) :
    parseNum (natToChars n ++ r) = some (n, r) := by
  obtain ⟨ht, hd⟩ := takeWhile_digits (natToChars n) r (natToChars_digits n)
    hr
  have hne : (natToChars n).isEmpty = false := by
    cases h : natToChars n with
    | nil => exact absurd h (natToChars_ne_nil n)
    | cons a as => rfl
  simp only [parseNum, ht, hd, hne, Bool.false_eq_true, if_false,
    digitsVal_natToChars]

theorem parseStringRest_escape (s r : List Char) :
    parseStringRest (escapeChars s ++ '"' :: r) = some (s, r) := by
  induction s with
  | nil =>
    rw [show escapeChars [] ++ '"' :: r = '"' :: r from rfl,
      parseStringRest.eq_def]
    simp
  | cons c cs ih =>
    by_cases hq : c = '"'
    · subst hq
      have hstep : escapeChars ('"' :: cs) ++ '"' :: r =
          '\\' :: '"' :: (escapeChars cs ++ '"' :: r) := by
        simp [escapeChars]
      rw [hstep, parseStringRest.eq_def]
      simp [escChar, ih, show ('\\' : Char) ≠ '"' from by decide]
    · by_cases hb : c = '\\'
      · subst hb
        have hstep : escapeChars ('\\' :: cs) ++ '"' :: r =
            '\\' :: '\\' :: (escapeChars cs ++ '"' :: r) := by
          simp [escapeChars]
        rw [hstep, parseStringRest.eq_def]
        simp [escChar, ih, show ('\\' : Char) ≠ '"' from by decide]
      · have hstep : escapeChars (c :: cs) ++ '"' :: r =
            c :: (escapeChars cs ++ '"' :: r) := by
          simp [escapeChars, hq, hb]
        rw [hstep, parseStringRest.eq_def]
        simp [hq, hb, ih]

mutual

/-- Fuel lower bound sufficient for `parseVal` on a serialized value. -/
def sizeVal : Json → Nat
  | .arr elems => 1 + sizeElems elems
  | .obj fields => 1 + sizeFields fields
  | _ => 1

/-- Fuel lower bound for `parseElems` on serialized array elements. -/
def sizeElems : List Json → Nat
  | [] => 0
  | v :: rest => 1 + sizeVal v + sizeElems rest

/-- Fuel lower bound for `parseFields` on serialized object entries. -/
def sizeFields : List (String × Json) → Nat
  | [] => 0
  | (_, v) :: rest => 1 + sizeVal v + sizeFields rest

end

theorem sizeVal_pos (v : Json) : 1 ≤ sizeVal v := by
  cases v <;> simp [sizeVal]

theorem digit_facts (c : Char) (h : c.isDigit = true) :
    isJsonWs c = false ∧ ¬c = 'n' ∧ ¬c = 't' ∧ ¬c = 'f' ∧ ¬c = '"' ∧
    ¬c = '[' ∧ ¬c = '{' ∧ ¬c = '-' ∧ ¬c = ']' ∧ ¬c = '}' := by
  have h1 : ¬c = ' ' := fun he => absurd h (by rw [he]; decide)
  have h2 : ¬c = '\t' := fun he => absurd h (by rw [he]; decide)
  have h3 : ¬c = '\n' := fun he => absurd h (by rw [he]; decide)
  have h4 : ¬c = '\r' := fun he => absurd h (by rw [he]; decide)
  refine ⟨by simp [isJsonWs, h1, h2, h3, h4], ?_, ?_, ?_, ?_, ?_, ?_, ?_,
    ?_, ?_⟩ <;>
    exact fun he => absurd h (by rw [he]; decide)

/-- Every serialized value starts with a non-whitespace character that is
neither `']'` nor `'}'`. -/
theorem dumpVal_head (v : Json) : ∃ c cs, dumpVal v = c :: cs ∧
    isJsonWs c = false ∧ ¬c = ']' ∧ ¬c = '}' := by
  cases v with
  | null =>
    refine ⟨'n', _, rfl, ?_, ?_, ?_⟩ <;> decide
  | bool b =>
    cases b with
    | true => refine ⟨'t', _, rfl, ?_, ?_, ?_⟩ <;> decide
    | false => refine ⟨'f', _, rfl, ?_, ?_, ?_⟩ <;> decide
  | num n =>
    show ∃ c cs,
      (if n < 0 then '-' :: natToChars n.natAbs else natToChars n.toNat) =
        c :: cs ∧ _
    by_cases hn : n < 0
    · rw [if_pos hn]
      exact ⟨'-', _, rfl, by decide, by decide, by decide⟩
    · rw [if_neg hn]
      obtain ⟨c, cs, hc⟩ :=
        List.exists_cons_of_ne_nil (natToChars_ne_nil n.toNat)
      have hd : c.isDigit = true :=
        natToChars_digits n.toNat c (by rw [hc]; simp)
      obtain ⟨hws, _, _, _, _, _, _, _, hrb, hcb⟩ := digit_facts c hd
      exact ⟨c, cs, hc, hws, hrb, hcb⟩
  | str s => refine ⟨'"', _, rfl, ?_, ?_, ?_⟩ <;> decide
  | arr elems => refine ⟨'[', _, rfl, ?_, ?_, ?_⟩ <;> decide
  | obj fields => refine ⟨'{', _, rfl, ?_, ?_, ?_⟩ <;> decide

theorem dumpElems_head (v : Json) (vs : List Json) (X : List Char) :
    ∃ c t, dumpElems (v :: vs) ++ X = c :: t ∧ isJsonWs c = false ∧
      ¬c = ']' ∧ ¬c = '}' := by
  obtain ⟨c, cs, hch, h1, h2, h3⟩ := dumpVal_head v
  cases vs with
  | nil =>
    refine ⟨c, cs ++ X, ?_, h1, h2, h3⟩
    rw [show dumpElems [v] = dumpVal v from rfl, hch]
    rfl
  | cons w ws =>
    have hrw : dumpElems (v :: w :: ws) ++ X =
        c :: (cs ++ ',' :: ' ' :: (dumpElems (w :: ws) ++ X)) := by
      rw [show dumpElems (v :: w :: ws) =
        dumpVal v ++ ',' :: ' ' :: dumpElems (w :: ws) from rfl, hch]
      simp
    exact ⟨c, _, hrw, h1, h2, h3⟩

theorem dumpFields_head (a : String) (b : Json)
    (kvs : List (String × Json)) (X : List Char) :
    ∃ t, dumpFields ((a, b) :: kvs) ++ X = '"' :: t := by
  cases kvs with
  | nil => exact ⟨_, rfl⟩
  | cons kv kvs => exact ⟨_, rfl⟩


theorem parse_dump (k : Nat) :
    (∀ v, sizeVal v ≤ k →
      ∀ fuel r, sizeVal v ≤ fuel → notDigitStart r →
        parseVal fuel (dumpVal v ++ r) = some (v, r)) ∧
    (∀ vs, vs ≠ [] → sizeElems vs ≤ k →
      ∀ fuel r, sizeElems vs ≤ fuel →
        parseElems fuel (dumpElems vs ++ ']' :: r) = some (vs, r)) ∧
    (∀ kvs, kvs ≠ [] → sizeFields kvs ≤ k →
      ∀ fuel r, sizeFields kvs ≤ fuel →
        parseFields fuel (dumpFields kvs ++ '}' :: r) = some (kvs, r)) := by
  induction k using Nat.strong_induction_on with
  | _ k ih =>
    refine ⟨?_, ?_, ?_⟩
    · -- serialized single values
      intro v hvk fuel r hvf hr
      have hpos := sizeVal_pos v
      cases fuel with
      | zero => omega
      | succ fuel =>
        cases v with
        | null =>
          show parseVal (fuel + 1) (['n', 'u', 'l', 'l'] ++ r) = _
          rfl
        | bool b =>
          cases b with
          | false =>
            show parseVal (fuel + 1) (['f', 'a', 'l', 's', 'e'] ++ r) = _
            rfl
          | true =>
            show parseVal (fuel + 1) (['t', 'r', 'u', 'e'] ++ r) = _
            rfl
        | num n =>
          by_cases hn : n < 0
          · have hdmp : dumpVal (num n) ++ r =
                '-' :: (natToChars n.natAbs ++ r) := by
              simp [dumpVal, hn]
            rw [hdmp]
            rw [show parseVal (fuel + 1)
                ('-' :: (natToChars n.natAbs ++ r)) =
              (parseNum (natToChars n.natAbs ++ r)).map
                (fun p => (num (-(p.1 : Int)), p.2)) from rfl]
            rw [parseNum_natToChars _ _ hr]
            have hne : (-(n.natAbs : Int)) = n := by omega
            rw [show Option.map
                (fun p => ((num (-(p.1 : Int)) : Json), p.2))
                (some (n.natAbs, r)) =
              some (num (-(n.natAbs : Int)), r) from rfl, hne]
          · obtain ⟨c, cs, hc⟩ :=
              List.exists_cons_of_ne_nil (natToChars_ne_nil n.toNat)
            have hd : c.isDigit = true :=
              natToChars_digits n.toNat c (by rw [hc]; simp)
            obtain ⟨hws, h1, h2, h3, h4, h5, h6, h7, _, _⟩ :=
              digit_facts c hd
            have hdmp : dumpVal (num n) ++ r = c :: (cs ++ r) := by
              simp [dumpVal, hn, hc]
            rw [hdmp, parseVal, skipWs_cons c (cs ++ r) hws]
            simp only [h1, h2, h3, h4, h5, h6, h7, hd, if_false, if_true]
            rw [show c :: (cs ++ r) = (c :: cs) ++ r from rfl, ← hc,
              parseNum_natToChars _ _ hr]
            have hcast : ((n.toNat : Nat) : Int) = n := by omega
            simp [hcast]
        | str s =>
          have hdmp : dumpVal (str s) ++ r =
              '"' :: (escapeChars s.data ++ '"' :: r) := by
            simp [dumpVal]
          rw [hdmp]
          rw [show parseVal (fuel + 1)
              ('"' :: (escapeChars s.data ++ '"' :: r)) =
            (parseStringRest (escapeChars s.data ++ '"' :: r)).map
              (fun p => (str ⟨p.1⟩, p.2)) from rfl]
          rw [parseStringRest_escape]
          rfl
        | arr elems =>
          cases elems with
          | nil =>
            show parseVal (fuel + 1) (['[', ']'] ++ r) = _
            rfl
          | cons v vs =>
            have hsz : sizeVal (arr (v :: vs)) = 1 + sizeElems (v :: vs) :=
              rfl
            have hdmp : dumpVal (arr (v :: vs)) ++ r =
                '[' :: (dumpElems (v :: vs) ++ ']' :: r) := by
              simp [dumpVal]
            rw [hdmp]
            obtain ⟨c, t, hct, hcw, hcr, _⟩ :=
              dumpElems_head v vs (']' :: r)
            have hQ := (ih (sizeElems (v :: vs)) (by omega)).2.1 (v :: vs)
              (by simp) le_rfl fuel r (by omega)
            rw [parseVal]
            rw [show skipWs ('[' :: (dumpElems (v :: vs) ++ ']' :: r)) =
              '[' :: (dumpElems (v :: vs) ++ ']' :: r) from
              skipWs_cons _ _ (by decide)]
            rw [hct]
            simp only [skipWs_cons c t hcw]
            simp [hcr]
            rw [← hct, hQ]
        | obj fields =>
          cases fields with
          | nil =>
            show parseVal (fuel + 1) (['{', '}'] ++ r) = _
            rfl
          | cons kv kvs =>
            obtain ⟨a, b⟩ := kv
            have hsz : sizeVal (obj ((a, b) :: kvs)) =
                1 + sizeFields ((a, b) :: kvs) := rfl
            have hdmp : dumpVal (obj ((a, b) :: kvs)) ++ r =
                '{' :: (dumpFields ((a, b) :: kvs) ++ '}' :: r) := by
              simp [dumpVal]
            rw [hdmp]
            obtain ⟨t, hct⟩ := dumpFields_head a b kvs ('}' :: r)
            have hR := (ih (sizeFields ((a, b) :: kvs)) (by omega)).2.2
              ((a, b) :: kvs) (by simp) le_rfl fuel r (by omega)
            rw [parseVal]
            rw [show skipWs ('{' :: (dumpFields ((a, b) :: kvs) ++ '}' :: r))
              = '{' :: (dumpFields ((a, b) :: kvs) ++ '}' :: r) from
              skipWs_cons _ _ (by decide)]
            rw [hct]
            simp only [skipWs_cons '"' t (by decide)]
            simp [show ¬('"' : Char) = '}' from by decide]
            rw [← hct, hR]
    · -- serialized array elements
      intro vs hne hk fuel r hf
      cases vs with
      | nil => exact absurd rfl hne
      | cons v vs =>
        have hsz : sizeElems (v :: vs) = 1 + sizeVal v + sizeElems vs := rfl
        cases fuel with
        | zero => omega
        | succ fuel =>
          have hP := (ih (sizeVal v) (by omega)).1 v le_rfl
          cases vs with
          | nil =>
            have hdmp : dumpElems [v] ++ ']' :: r = dumpVal v ++ ']' :: r :=
              rfl
            rw [hdmp, parseElems]
            rw [hP fuel (']' :: r) (by omega) (by exact rfl)]
            simp [skipWs_cons ']' r (by decide)]
          | cons w ws =>
            have hdmp : dumpElems (v :: w :: ws) ++ ']' :: r =
                dumpVal v ++
                  (',' :: ' ' :: (dumpElems (w :: ws) ++ ']' :: r)) := by
              rw [show dumpElems (v :: w :: ws) =
                dumpVal v ++ ',' :: ' ' :: dumpElems (w :: ws) from rfl]
              simp
            rw [hdmp, parseElems]
            rw [hP fuel (',' :: ' ' :: (dumpElems (w :: ws) ++ ']' :: r))
              (by omega) (by exact rfl)]
            obtain ⟨c2, t2, hc2, hw2, _, _⟩ :=
              dumpElems_head w ws (']' :: r)
            have hQ := (ih (sizeElems (w :: ws)) (by omega)).2.1 (w :: ws)
              (by simp) le_rfl fuel r (by omega)
            rw [hc2]
            simp [skipWs_cons ',' _ (by decide), skipWs_space,
              skipWs_cons c2 t2 hw2]
            rw [← hc2, hQ]
    · -- serialized object entries
      intro kvs hne hk fuel r hf
      cases kvs with
      | nil => exact absurd rfl hne
      | cons kv kvs =>
        obtain ⟨a, b⟩ := kv
        have hsz : sizeFields ((a, b) :: kvs) =
            1 + sizeVal b + sizeFields kvs := rfl
        cases fuel with
        | zero => omega
        | succ fuel =>
          have hP := (ih (sizeVal b) (by omega)).1 b le_rfl
          cases kvs with
          | nil =>
            have hdmp : dumpFields [(a, b)] ++ '}' :: r =
                '"' :: (escapeChars a.data ++
                  '"' :: (':' :: ' ' :: (dumpVal b ++ '}' :: r))) := by
              rw [show dumpFields [(a, b)] =
                '"' :: (escapeChars a.data ++ ['"']) ++
                  ':' :: ' ' :: dumpVal b from rfl]
              simp
            obtain ⟨c3, cs3, hc3, hw3, _, _⟩ := dumpVal_head b
            have hYid : skipWs (dumpVal b ++ '}' :: r) =
                dumpVal b ++ '}' :: r := by
              rw [hc3]
              exact skipWs_cons _ _ hw3
            have hPb : parseVal fuel (dumpVal b ++ '}' :: r) =
                some (b, '}' :: r) :=
              hP fuel ('}' :: r) (by omega) (by exact rfl)
            rw [hdmp, parseFields]
            simp [parseStringRest_escape,
              skipWs_cons ':' _ (by decide), skipWs_space, hYid, hPb,
              skipWs_cons '}' r (by decide)]
          | cons kv2 kvs2 =>
            obtain ⟨a2, b2⟩ := kv2
            have hdmp : dumpFields ((a, b) :: (a2, b2) :: kvs2) ++ '}' :: r =
                '"' :: (escapeChars a.data ++
                  '"' :: (':' :: ' ' :: (dumpVal b ++
                    (',' :: ' ' :: (dumpFields ((a2, b2) :: kvs2) ++
                      '}' :: r))))) := by
              rw [show dumpFields ((a, b) :: (a2, b2) :: kvs2) =
                '"' :: (escapeChars a.data ++ ['"']) ++
                  ':' :: ' ' :: dumpVal b ++
                  ',' :: ' ' :: dumpFields ((a2, b2) :: kvs2) from rfl]
              simp
            obtain ⟨c3, cs3, hc3, hw3, _, _⟩ := dumpVal_head b
            have hYid : skipWs (dumpVal b ++
                (',' :: ' ' :: (dumpFields ((a2, b2) :: kvs2) ++
                  '}' :: r))) =
                dumpVal b ++ (',' :: ' ' :: (dumpFields ((a2, b2) :: kvs2)
                  ++ '}' :: r)) := by
              rw [hc3]
              exact skipWs_cons _ _ hw3
            have hPb : parseVal fuel (dumpVal b ++
                (',' :: ' ' :: (dumpFields ((a2, b2) :: kvs2) ++
                  '}' :: r))) =
                some (b, ',' :: ' ' :: (dumpFields ((a2, b2) :: kvs2) ++
                  '}' :: r)) :=
              hP fuel _ (by omega) (by exact rfl)
            obtain ⟨t4, ht4⟩ := dumpFields_head a2 b2 kvs2 ('}' :: r)
            have hR := (ih (sizeFields ((a2, b2) :: kvs2)) (by
                have : sizeFields ((a2, b2) :: kvs2) =
                  1 + sizeVal b2 + sizeFields kvs2 := rfl
                omega)).2.2
              ((a2, b2) :: kvs2) (by simp) le_rfl fuel r (by
                have : sizeFields ((a2, b2) :: kvs2) =
                  1 + sizeVal b2 + sizeFields kvs2 := rfl
                omega)
            have hZid : skipWs (dumpFields ((a2, b2) :: kvs2) ++ '}' :: r)
                = dumpFields ((a2, b2) :: kvs2) ++ '}' :: r := by
              rw [ht4]
              exact skipWs_cons _ _ (by decide)
            rw [hdmp, parseFields]
            simp [parseStringRest_escape,
              skipWs_cons ':' _ (by decide), skipWs_space, hYid, hPb,
              skipWs_cons ',' _ (by decide), hZid, hR]

theorem size_le_length (k : Nat) :
    (∀ v, sizeVal v ≤ k → sizeVal v ≤ (dumpVal v).length) ∧
    (∀ vs, sizeElems vs ≤ k →
      sizeElems vs ≤ (dumpElems vs).length + 1) ∧
    (∀ kvs, sizeFields kvs ≤ k →
      sizeFields kvs ≤ (dumpFields kvs).length + 1) := by
  induction k using Nat.strong_induction_on with
  | _ k ih =>
    refine ⟨?_, ?_, ?_⟩
    · intro v hvk
      cases v with
      | null => simp [sizeVal, dumpVal]
      | bool b => cases b <;> simp [sizeVal, dumpVal]
      | num n =>
        by_cases hn : n < 0
        · have h1 : 0 < (natToChars n.natAbs).length :=
            List.length_pos.mpr (natToChars_ne_nil _)
          simp [sizeVal, dumpVal, hn]
        · have h1 : 0 < (natToChars n.toNat).length :=
            List.length_pos.mpr (natToChars_ne_nil _)
          simp [sizeVal, dumpVal, hn]
          omega
      | str s => simp [sizeVal, dumpVal]
      | arr elems =>
        cases elems with
        | nil => simp [sizeVal, sizeElems, dumpVal, dumpElems]
        | cons v vs =>
          have hsz : sizeVal (arr (v :: vs)) = 1 + sizeElems (v :: vs) :=
            rfl
          have hq := (ih (sizeElems (v :: vs)) (by omega)).2.1 (v :: vs)
            le_rfl
          have hlen : (dumpVal (arr (v :: vs))).length =
              2 + (dumpElems (v :: vs)).length := by
            simp [dumpVal]
            omega
          omega
      | obj fields =>
        cases fields with
        | nil => simp [sizeVal, sizeFields, dumpVal, dumpFields]
        | cons kv kvs =>
          have hsz : sizeVal (obj (kv :: kvs)) =
              1 + sizeFields (kv :: kvs) := rfl
          have hq := (ih (sizeFields (kv :: kvs)) (by omega)).2.2 (kv :: kvs)
            le_rfl
          have hlen : (dumpVal (obj (kv :: kvs))).length =
              2 + (dumpFields (kv :: kvs)).length := by
            simp [dumpVal]
            omega
          omega
    · intro vs hk
      cases vs with
      | nil => simp [sizeElems]
      | cons v vs =>
        have hsz : sizeElems (v :: vs) = 1 + sizeVal v + sizeElems vs := rfl
        have hp := (ih (sizeVal v) (by omega)).1 v le_rfl
        cases vs with
        | nil =>
          have hlen : (dumpElems [v]).length = (dumpVal v).length := rfl
          have hsz0 : sizeElems ([] : List Json) = 0 := rfl
          omega
        | cons w ws =>
          have hq := (ih (sizeElems (w :: ws)) (by
              have h1 := sizeVal_pos v
              omega)).2.1 (w :: ws) le_rfl
          have hlen : (dumpElems (v :: w :: ws)).length =
              (dumpVal v).length + 2 + (dumpElems (w :: ws)).length := by
            rw [show dumpElems (v :: w :: ws) =
              dumpVal v ++ ',' :: ' ' :: dumpElems (w :: ws) from rfl]
            simp
            omega
          omega
    · intro kvs hk
      cases kvs with
      | nil => simp [sizeFields]
      | cons kv kvs =>
        obtain ⟨a, b⟩ := kv
        have hsz : sizeFields ((a, b) :: kvs) =
            1 + sizeVal b + sizeFields kvs := rfl
        have hp := (ih (sizeVal b) (by omega)).1 b le_rfl
        cases kvs with
        | nil =>
          have hlen : (dumpFields [(a, b)]).length =
              (escapeChars a.data).length + 4 + (dumpVal b).length := by
            rw [show dumpFields [(a, b)] =
              '"' :: (escapeChars a.data ++ ['"']) ++
                ':' :: ' ' :: dumpVal b from rfl]
            simp
            omega
          have hsz0 : sizeFields ([] : List (String × Json)) = 0 := rfl
          omega
        | cons kv2 kvs2 =>
          have hq := (ih (sizeFields (kv2 :: kvs2)) (by
              have h1 := sizeVal_pos b
              omega)).2.2 (kv2 :: kvs2) le_rfl
          have hlen : (dumpFields ((a, b) :: kv2 :: kvs2)).length =
              (escapeChars a.data).length + 6 + (dumpVal b).length +
                (dumpFields (kv2 :: kvs2)).length := by
            rw [show dumpFields ((a, b) :: kv2 :: kvs2) =
              '"' :: (escapeChars a.data ++ ['"']) ++
                ':' :: ' ' :: dumpVal b ++
                ',' :: ' ' :: dumpFields (kv2 :: kvs2) from rfl]
            simp
            omega
          omega

theorem loads_dumps (v : Json) : loads (dumps v) = some v := by
  have hsl := (size_le_length (sizeVal v)).1 v le_rfl
  have hp := (parse_dump (sizeVal v)).1 v le_rfl ((dumpVal v).length + 1)
    [] (by omega) trivial
  rw [List.append_nil] at hp
  rw [loads]
  simp [dumps, hp, skipWs]

end Json

/-- C8: the full export for an endpoint is a sequence of
`(timestamp, payload)` entries with exactly one entry per stored Payload
Record of that endpoint, ordered newest first by stored timestamp, and — the
stored text being `json.dumps` of the ingested value — re-parsing the stored
text yields exactly the originally ingested JSON value. -/
theorem download_export_roundtrip (webhook_id : String) (db : DbState)
    (h : ∀ p ∈ DbManager.payloads_of webhook_id db,
      ∃ v, Json.wfVal v = true ∧ p.payload = Json.dumps v) :
    (download_webhook_data webhook_id db).Perm
      ((DbManager.payloads_of webhook_id db).map
        (fun p => (p.timestamp, Json.loads p.payload))) ∧
    List.Pairwise (fun a b => sqlLe b.1 a.1 = true)
      (download_webhook_data webhook_id db) ∧
    ∀ p ∈ DbManager.payloads_of webhook_id db,
      ∃ v, Json.wfVal v = true ∧ p.payload = Json.dumps v ∧
        Json.loads p.payload = some v := by
  refine ⟨?_, ?_, ?_⟩
  · exact List.Perm.map _ (List.perm_insertionSort _ _)
  · have hs := List.sorted_insertionSort DbManager.byTimestampDesc
      (DbManager.payloads_of webhook_id db)
    exact List.Pairwise.map _ (fun p q hpq => hpq) hs
  · intro p hp
    obtain ⟨v, hwf, hpv⟩ := h p hp
    exact ⟨v, hwf, hpv, by rw [hpv]; exact Json.loads_dumps v⟩

/-- First stored payload (an object) for the C8 witness. -/
def sampleRow1 : PayloadRow :=
  { id := 1, webhook_id := "wid0", timestamp := "t2",
    payload := Json.dumps (Json.obj [("a", Json.num 1)]) }

/-- Second stored payload (an array) for the C8 witness. -/
def sampleRow2 : PayloadRow :=
  { id := 2, webhook_id := "wid0", timestamp := "t1",
    payload := Json.dumps (Json.arr [Json.null, Json.str "x"]) }

/-- Two stored payloads for the C8 witness. -/
def sampleExportDb : DbState :=
  { webhooks := [sampleHook],
    webhook_payloads := [sampleRow1, sampleRow2],
    webhook_failures := [], next_payload_id := 3, next_failure_id := 1 }

/-- Witness for C8 on `sampleExportDb`. -/
theorem download_export_roundtrip_witness :
    (∀ p ∈ DbManager.payloads_of "wid0" sampleExportDb,
      ∃ v, Json.wfVal v = true ∧ p.payload = Json.dumps v) ∧
    List.Pairwise (fun a b => sqlLe b.1 a.1 = true)
      (download_webhook_data "wid0" sampleExportDb) := by
  have hh : ∀ p ∈ DbManager.payloads_of "wid0" sampleExportDb,
      ∃ v, Json.wfVal v = true ∧ p.payload = Json.dumps v := by
    intro p hp
    have hp' : p = sampleRow1 ∨ p = sampleRow2 := by
      simpa [DbManager.payloads_of, sampleExportDb, sampleRow1, sampleRow2]
        using hp
    rcases hp' with rfl | rfl
    · exact ⟨Json.obj [("a", Json.num 1)], by decide, rfl⟩
    · exact ⟨Json.arr [Json.null, Json.str "x"], by decide, rfl⟩
  exact ⟨hh, (download_export_roundtrip "wid0" sampleExportDb hh).2.1⟩
